import Mathlib

/-!
# Verification of the faucet payout-batching and UTXO-consolidation engine

Shallow embedding of the faucet service (packages `db`, `service`, `main`).
Go `float64` amounts are modeled as exact rationals (`ℚ`); the remote node
is modeled as an oracle (`RpcOracle`) giving each RPC round-trip's parsed
result or its error text; the durable store is a list of records and store
writes are modeled as succeeding.
-/

namespace Faucet

/-- Transaction status constants `db.TxnStatusPending/Processing/Failed/Broadcast`. -/
inductive TxnStatus where
  | pending
  | processing
  | failed
  | broadcast
deriving DecidableEq, Repr

/-- `db.Transaction`: the persisted payout-request record.  `createdAt` is an
abstract numeric timestamp (in hours, so the 24h rate-limit window is `now - 24`). -/
structure Transaction where
  id : Nat
  createdAt : ℚ
  address : String
  ipAddress : String
  onchainTxnID : String
  amountBTC : ℚ
  status : TxnStatus
  errorMsg : String
deriving DecidableEq, Repr

/-- `db.GetTransactions(db, status, "", limit)`: query by status with a row limit,
no explicit ordering (modeled as insertion order). -/
def GetTransactions (store : List Transaction) (status : TxnStatus) (limit : Nat) :
    List Transaction :=
  (store.filter (fun t => decide (t.status = status))).take limit

/-- The `mine` object of the node's `getbalances` reply (`btc.go` `WalletBalance`). -/
structure WalletBalance where
  trusted : ℚ
  untrusted : ℚ
  immature : ℚ
deriving DecidableEq, Repr

/-- `btc.go` `Balances`. -/
structure Balances where
  mine : WalletBalance
deriving DecidableEq, Repr

/-- `btc.go` `UTXO` as returned by `listunspent`. -/
structure UTXO where
  txID : String
  vout : Nat
  address : String
  amount : ℚ
  confirmations : Int
  spendable : Bool
  solvable : Bool
  safe : Bool
deriving DecidableEq, Repr

/-- The node capability.  One field per RPC round-trip used by the service;
a field's value is the RPC's unmarshalled result, or `.error` carrying the
error text (transport, RPC or unmarshal failure).  `createRawNoInputs` is
`createrawtransaction` with an empty input list (outputs given as the
destination address, the amount, and whether an op-return data output is
attached); `createRawWithInputs` is `createrawtransaction` with pinned inputs. -/
structure RpcOracle where
  getBalances : Except String Balances
  listUnspent : Except String (List UTXO)
  getNewAddress : String → String → Except String String
  createRawNoInputs : String → ℚ → Bool → Except String String
  fundRaw : String → ℚ → Except String (String × ℚ)
  signRaw : String → Except String (String × Bool)
  sendRaw : String → Except String String
  createRawWithInputs : List UTXO → String → ℚ → Bool → Except String String

/-- `btc.go`: `dustLimitBTC = 0.00001` (1000 sats). -/
def dustLimitBTC : ℚ := 0.00001

/-- `btc.go`: `feeSatsPerVBLowerLimit = 0.1`. -/
def feeSatsPerVBLowerLimit : ℚ := 0.1

/-- `processor.go`: `defaultOpReturn`. -/
def defaultOpReturn : String := "<3 faucet.coinbin.org <3"

/-- `BitcoinRPCClient.SendToAddressWithOpReturn` (`btc.go:154-232`).
Returns the result (txid or error text) together with the list of RPC
methods invoked, in order.  The funded transaction's fee and the hex
payload contents are consumed opaquely by the oracle. -/
def SendToAddressWithOpReturn (o : RpcOracle) (address : String)
    (amountBTC feeRateSatsPerVB : ℚ) (opReturnData : String) :
    Except String String × List String :=
  if amountBTC < dustLimitBTC then
    (.error "Amount too low", [])
  else
    match o.createRawNoInputs address amountBTC (0 < opReturnData.length) with
    | .error e => (.error ("createrawtransaction failed: " ++ e),
        ["createrawtransaction"])
    | .ok rawTxHex =>
      match o.fundRaw rawTxHex feeRateSatsPerVB with
      | .error e => (.error ("fundrawtransaction failed: " ++ e),
          ["createrawtransaction", "fundrawtransaction"])
      | .ok (fundedHex, _fee) =>
        match o.signRaw fundedHex with
        | .error e => (.error ("signrawtransactionwithwallet failed: " ++ e),
            ["createrawtransaction", "fundrawtransaction",
             "signrawtransactionwithwallet"])
        | .ok (signedHex, complete) =>
          if complete = false then
            (.error "transaction signing incomplete",
              ["createrawtransaction", "fundrawtransaction",
               "signrawtransactionwithwallet"])
          else
            match o.sendRaw signedHex with
            | .error e => (.error ("sendrawtransaction failed: " ++ e),
                ["createrawtransaction", "fundrawtransaction",
                 "signrawtransactionwithwallet", "sendrawtransaction"])
            | .ok txid => (.ok txid,
                ["createrawtransaction", "fundrawtransaction",
                 "signrawtransactionwithwallet", "sendrawtransaction"])

/-- `Service.GetAvailableWalletBalance` (`service.go:197-204`): trusted plus
untrusted wallet balance, `0.0` when the `getbalances` call fails. -/
def GetAvailableWalletBalance (o : RpcOracle) : ℚ :=
  match o.getBalances with
  | .error _ => 0
  | .ok balances => balances.mine.trusted + balances.mine.untrusted

/-- gorm `db.Model(&tx).Updates(...)` / `UpdateStatus`: update the record with
the given primary key.  Store writes are modeled as succeeding. -/
def updateTxn (store : List Transaction) (id : Nat) (f : Transaction → Transaction) :
    List Transaction :=
  store.map (fun t => if t.id = id then f t else t)

/-- The node call `processBatch` makes for one pending record
(`processor.go:73-79`): fee rate `feeSatsPerVBLowerLimit * 1.15`, fixed memo. -/
def sendForTxn (o : RpcOracle) (tx : Transaction) : Except String String :=
  (SendToAddressWithOpReturn o tx.address tx.amountBTC
    (feeSatsPerVBLowerLimit * 1.15) defaultOpReturn).1

/-- One iteration of the `processBatch` per-record loop (`processor.go:67-102`):
mark `processing`, call the node, then mark `failed` (storing the error text)
or `broadcast` (storing the external transaction id). -/
def processOne (o : RpcOracle) (store : List Transaction) (tx : Transaction) :
    List Transaction :=
  let store1 := updateTxn store tx.id (fun t => { t with status := .processing })
  match sendForTxn o tx with
  | .error e => updateTxn store1 tx.id
      (fun t => { t with status := .failed, errorMsg := e })
  | .ok txid => updateTxn store1 tx.id
      (fun t => { t with status := .broadcast, onchainTxnID := txid })

/-- `Service.processBatch` (`processor.go:39-105`): read up to 50 `pending`
records, sum their amounts, and only process the batch when the live
available balance covers the sum. -/
def processBatch (o : RpcOracle) (store : List Transaction) : List Transaction :=
  let pendingTxns := GetTransactions store .pending 50
  if pendingTxns.isEmpty then store
  else
    let totalNeededBTC := (pendingTxns.map (fun t => t.amountBTC)).sum
    let availableBalance := GetAvailableWalletBalance o
    if availableBalance < totalNeededBTC then store
    else pendingTxns.foldl (fun st tx => processOne o st tx) store

/-- The part of `Config` (`service.go`) the submit handler reads. -/
structure SubmitConfig where
  maxWithdrawalsPerIP24h : Nat
deriving DecidableEq, Repr

/-- The JSON replies of `submitHandler` that this model distinguishes. -/
inductive SubmitResponse where
  | turnstileRejected
  | invalidAddress
  | rateLimited
  | addressAlreadyUsed
  | queued
deriving DecidableEq, Repr

/-- The rate-limit count of `submitHandler` (`handlers.go:90-101`): records
from the same client IP created inside the trailing 24-hour window
(timestamps are in hours, so the cutoff is `now - 24`). -/
def recentCountForIP (store : List Transaction) (clientIP : String) (now : ℚ) : Nat :=
  (store.filter (fun t =>
    decide (t.ipAddress = clientIP) && decide (now - 24 < t.createdAt))).length

/-- The record `submitHandler` creates (`handlers.go:127-132`): new pending
request with Go zero values for the unset fields; `nextId` models the
autoincremented key. -/
def newSubmitRecord (nextId : Nat) (now : ℚ) (address clientIP : String)
    (amountBTC : ℚ) : Transaction :=
  { id := nextId, createdAt := now, address := address, ipAddress := clientIP,
    onchainTxnID := "", amountBTC := amountBTC, status := .pending, errorMsg := "" }

/-- `Service.submitHandler` (`handlers.go:28-156`) from the request decode on.
`turnstileOk` abstracts the Turnstile gate (vacuously true when no secret is
configured), `addrOk` abstracts `btc.ValidateSignetAddress(address) == nil`,
`isAdminIP` the allow-list check, and `amountBTC` the amount-policy result
(see `payoutAmountBTC`).  The store's unique index on `address`
(`db.Transaction`, gorm tag `uniqueIndex`) makes the create fail exactly when
a record with the same address exists; the handler maps that conflict to the
"Address already used" reply. -/
def submitHandler (cfg : SubmitConfig) (store : List Transaction)
    (turnstileOk addrOk isAdminIP : Bool) (now : ℚ) (address clientIP : String)
    (nextId : Nat) (amountBTC : ℚ) : List Transaction × SubmitResponse :=
  if turnstileOk = false then (store, .turnstileRejected)
  else if addrOk = false then (store, .invalidAddress)
  else if isAdminIP = false ∧ cfg.maxWithdrawalsPerIP24h ≤ recentCountForIP store clientIP now then
    (store, .rateLimited)
  else if store.any (fun t => decide (t.address = address)) then
    (store, .addressAlreadyUsed)
  else
    (store ++ [newSubmitRecord nextId now address clientIP amountBTC], .queued)

/-- The operations that touch the transaction record store: an intake
submission and a batch-processor cycle.  (The admin handlers and the
consolidation engine never read or write payout records.)  Each `batch`
operation carries the node's state at that tick. -/
inductive Op where
  | submit (cfg : SubmitConfig) (turnstileOk addrOk isAdminIP : Bool) (now : ℚ)
      (address clientIP : String) (amountBTC : ℚ)
  | batch (o : RpcOracle)

/-- One system step over the store. -/
def step (store : List Transaction) : Op → List Transaction
  | .submit cfg turnstileOk addrOk isAdminIP now address clientIP amountBTC =>
      (submitHandler cfg store turnstileOk addrOk isAdminIP now address clientIP
        store.length amountBTC).1
  | .batch o => processBatch o store

/-- The store after running a sequence of operations from the empty store;
every reachable store is `run ops` for some `ops`. -/
def run (ops : List Op) : List Transaction :=
  ops.foldl step []

/-- The consolidation part of `Config` (`service.go`).  The two counts are
natural numbers (`main.go` only checks `min ≤ max`). -/
structure ConsolidationConfig where
  consolidationAmountThresholdBTC : ℚ
  maxConsolidationUTXOs : Nat
  minConsolidationUTXOs : Nat
deriving DecidableEq, Repr

/-- Eligibility of a UTXO for consolidation, the complement of the two `continue`
guards of the selection loop (`processor.go:129-135`): spendable, amount at or
below the configured threshold, amount at or above the dust floor. -/
def utxoEligible (cfg : ConsolidationConfig) (u : UTXO) : Bool :=
  decide (u.amount ≤ cfg.consolidationAmountThresholdBTC) && u.spendable &&
    decide (dustLimitBTC ≤ u.amount)

/-- The small-UTXO selection loop inside `ConsolidateUTXOs`
(`processor.go:128-143`): walk the sorted list, skip ineligible outputs,
stop once the configured maximum count is collected. -/
def selectSmallUTXOs (cfg : ConsolidationConfig) :
    List UTXO → List UTXO → List UTXO
  | [], acc => acc
  | u :: rest, acc =>
    if cfg.consolidationAmountThresholdBTC < u.amount ∨ u.spendable = false then
      selectSmallUTXOs cfg rest acc
    else if u.amount < dustLimitBTC then
      selectSmallUTXOs cfg rest acc
    else if cfg.maxConsolidationUTXOs ≤ acc.length then
      acc
    else
      selectSmallUTXOs cfg rest (acc ++ [u])

/-- The `smallUTXOs` slice `ConsolidateUTXOs` collects from a `listunspent`
reply: sort ascending by amount (`processor.go:122-124`; `sort.Slice` leaves
ties unspecified, modeled by `mergeSort`), then run the selection loop. -/
def consolidationCandidates (cfg : ConsolidationConfig) (utxos : List UTXO) :
    List UTXO :=
  selectSmallUTXOs cfg (utxos.mergeSort (fun a b => decide (a.amount ≤ b.amount))) []

/-- `service.ConsolidationResult` (`processor.go:107-114`); absent fields keep
Go's zero values. -/
structure ConsolidationResult where
  txID : String := ""
  count : Nat := 0
  amount : ℚ := 0
  address : String := ""
  message : String := ""
  skipReason : String := ""
deriving DecidableEq, Repr

/-- The skip reason `"No UTXOs smaller than %.8f BTC to consolidate"`
(float formatting abstracted). -/
def fmtNoUTXOsSkipReason (thresholdBTC : ℚ) : String :=
  "No UTXOs smaller than " ++ toString thresholdBTC ++ " BTC to consolidate"

/-- The skip reason `"Found %d small UTXOs, need at least %d to consolidate"`. -/
def fmtTooFewSkipReason (found minNeeded : Nat) : String :=
  "Found " ++ toString found ++ " small UTXOs, need at least " ++
    toString minNeeded ++ " to consolidate"

/-- The success message `"Consolidated %d UTXOs (%.8f BTC)"`. -/
def fmtConsolidatedMessage (count : Nat) (amount : ℚ) : String :=
  "Consolidated " ++ toString count ++ " UTXOs (" ++ toString amount ++ " BTC)"

/-- The node calls `Consolidate` can make, with the parameters of the
transaction build recorded on the `createrawtransaction` entry. -/
inductive ConsCall where
  | createrawtransaction (numInputs : Nat) (address : String)
      (outputAmount : ℚ) (hasData : Bool)
  | signrawtransactionwithwallet
  | sendrawtransaction
deriving DecidableEq, Repr

/-- `BitcoinRPCClient.Consolidate` (`btc.go:281-375`): sort the pinned inputs
descending by amount, estimate the fee from the vbyte formula at 0.15 sat/vB,
and build-sign-broadcast a single-output transaction (plus optional memo
output).  Returns the result and the list of node calls made. -/
def Consolidate (o : RpcOracle) (inputs : List UTXO) (totalAmountBTC : ℚ)
    (address : String) (opReturnData : String) :
    Except String String × List ConsCall :=
  let sortedInputs := inputs.mergeSort (fun a b => decide (b.amount ≤ a.amount))
  let numInputs := sortedInputs.length
  let numOutputs : Nat := if 0 < opReturnData.length then 2 else 1
  let estimatedVBytes : ℚ := 10.5 + (numInputs : ℚ) * 148 + (numOutputs : ℚ) * 31
  let feeRateSatPerVB : ℚ := 0.15
  let feeSats := estimatedVBytes * feeRateSatPerVB
  let estimatedFeeBTC := feeSats / 100000000
  let outputAmount := totalAmountBTC - estimatedFeeBTC
  if outputAmount ≤ 0 then
    (.error "total amount too small to cover fees", [])
  else
    let create : ConsCall :=
      .createrawtransaction numInputs address outputAmount (0 < opReturnData.length)
    match o.createRawWithInputs sortedInputs address outputAmount
        (0 < opReturnData.length) with
    | .error e => (.error ("createrawtransaction failed: " ++ e), [create])
    | .ok rawTxHex =>
      match o.signRaw rawTxHex with
      | .error e => (.error ("signrawtransactionwithwallet failed: " ++ e),
          [create, .signrawtransactionwithwallet])
      | .ok (signedHex, complete) =>
        if complete = false then
          (.error "transaction signing incomplete",
            [create, .signrawtransactionwithwallet])
        else
          match o.sendRaw signedHex with
          | .error e => (.error ("sendrawtransaction failed: " ++ e),
              [create, .signrawtransactionwithwallet, .sendrawtransaction])
          | .ok txid => (.ok txid,
              [create, .signrawtransactionwithwallet, .sendrawtransaction])

/-- `Service.ConsolidateUTXOs` (`processor.go:116-180`).  The second component
is true exactly when execution got past the two skip checks into the
consolidation stage (`GetNewAddress` + `Consolidate`), i.e. when a broadcast
is attempted. -/
def ConsolidateUTXOs (o : RpcOracle) (cfg : ConsolidationConfig) :
    Except String ConsolidationResult × Bool :=
  match o.listUnspent with
  | .error e => (.error ("failed to list UTXOs: " ++ e), false)
  | .ok utxos =>
    let smallUTXOs := consolidationCandidates cfg utxos
    let totalAmount := (smallUTXOs.map (fun u => u.amount)).sum
    if smallUTXOs.length = 0 then
      (.ok { skipReason := fmtNoUTXOsSkipReason cfg.consolidationAmountThresholdBTC },
        false)
    else if smallUTXOs.length < cfg.minConsolidationUTXOs then
      (.ok { count := smallUTXOs.length,
             skipReason := fmtTooFewSkipReason smallUTXOs.length
               cfg.minConsolidationUTXOs }, false)
    else
      match o.getNewAddress "consolidated" "bech32" with
      | .error e => (.error ("failed to generate new address: " ++ e), true)
      | .ok newAddress =>
        match (Consolidate o smallUTXOs totalAmount newAddress defaultOpReturn).1 with
        | .error e => (.error ("failed to consolidate: " ++ e), true)
        | .ok txid =>
          (.ok { txID := txid, count := smallUTXOs.length, amount := totalAmount,
                 address := newAddress,
                 message := fmtConsolidatedMessage smallUTXOs.length totalAmount },
            true)

/-- One tick of the balance refresher (`service.go:281-286`): a failed or
non-positive read is discarded, a positive one replaces the cache. -/
def balanceRefreshStep (walletBalance : ℚ) (o : RpcOracle) : ℚ :=
  let bal := GetAvailableWalletBalance o
  if 0 < bal then bal else walletBalance

/-- The cached `walletBalance` after `StartBalanceRefresher`'s synchronous
startup read (`service.go:267`) and a sequence of refresh ticks; each list
element is the node's state at one tick. -/
def cachedWalletBalance (oInit : RpcOracle) (ticks : List RpcOracle) : ℚ :=
  ticks.foldl balanceRefreshStep (GetAvailableWalletBalance oInit)

/-- An amount tier resolved to its BTC range (the `AmountRange` record
`handlers.go` reads via `GetAmountRangeByID`). -/
structure AmountRange where
  minBTC : ℚ
  maxBTC : ℚ
deriving DecidableEq, Repr

/-- `handlers.go:123`: `rangeSats := int((max-min)*1e8)`; Go truncates toward
zero, which for `minBTC ≤ maxBTC` is the floor.  `rand.Intn(rangeSats)` draws
a uniform integer in `[0, rangeSats)`. -/
def payoutRangeSats (r : AmountRange) : Int :=
  ⌊(r.maxBTC - r.minBTC) * 100000000⌋

/-- `handlers.go:125`: `amountBTC := min + 0.00000001*float64(randSats)`. -/
def payoutAmountBTC (r : AmountRange) (randSats : Nat) : ℚ :=
  r.minBTC + 0.00000001 * (randSats : ℚ)

/-! ## Concrete instances used to evaluate the development -/

/-- A node whose every RPC fails (e.g. the daemon is unreachable). -/
def oracleDown : RpcOracle :=
  { getBalances := .error "connection refused"
    listUnspent := .error "connection refused"
    getNewAddress := fun _ _ => .error "connection refused"
    createRawNoInputs := fun _ _ _ => .error "connection refused"
    fundRaw := fun _ _ => .error "connection refused"
    signRaw := fun _ => .error "connection refused"
    sendRaw := fun _ => .error "connection refused"
    createRawWithInputs := fun _ _ _ _ => .error "connection refused" }

/-- A healthy node with the given trusted balance and an empty UTXO set. -/
def oracleUp (bal : ℚ) : RpcOracle :=
  { getBalances := .ok ⟨⟨bal, 0, 0⟩⟩
    listUnspent := .ok []
    getNewAddress := fun _ _ => .ok "tb1qconsolidated"
    createRawNoInputs := fun _ _ _ => .ok "rawhex"
    fundRaw := fun hex _ => .ok (hex, 0)
    signRaw := fun hex => .ok (hex, true)
    sendRaw := fun _ => .ok "txid123"
    createRawWithInputs := fun _ _ _ _ => .ok "rawhex" }

/-- A node that answers `getbalances` but rejects transaction construction. -/
def oracleBuildFails (bal : ℚ) : RpcOracle :=
  { oracleUp bal with
    createRawNoInputs := fun _ _ _ => .error "boom"
    createRawWithInputs := fun _ _ _ _ => .error "boom" }

/-- A store holding one pending request for 1 BTC. -/
def storeOnePending : List Transaction :=
  [⟨0, 0, "tb1qaaa", "1.2.3.4", "", 1, .pending, ""⟩]

/-- A store holding two pending requests for 1 BTC each. -/
def storeTwoPending : List Transaction :=
  [⟨0, 0, "tb1qaaa", "1.2.3.4", "", 1, .pending, ""⟩,
   ⟨1, 0, "tb1qbbb", "1.2.3.4", "", 1, .pending, ""⟩]

/-- A store holding one already-broadcast request. -/
def storeOneBroadcast : List Transaction :=
  [⟨0, 0, "tb1qaaa", "1.2.3.4", "txid0", 1, .broadcast, ""⟩]

/-- A store holding one pending request below the 1000-satoshi dust floor. -/
def storeOneDust : List Transaction :=
  [⟨0, 0, "tb1qaaa", "1.2.3.4", "", 1/200000, .pending, ""⟩]

/-- Submit one request, then run a batch against a node that accepts the
balance query but fails transaction construction: the record ends `failed`. -/
def opsOneFailed : List Op :=
  [Op.submit ⟨2⟩ true true false 0 "tb1qbbb" "1.2.3.4" 1,
   Op.batch (oracleBuildFails 5)]

/-- The record `opsOneFailed` leaves behind. -/
def txnFailed : Transaction :=
  ⟨0, 0, "tb1qbbb", "1.2.3.4", "", 1, .failed, "createrawtransaction failed: boom"⟩

/-- A spendable 0.0005-BTC UTXO at the given vout. -/
def smallUTXO (vout : Nat) : UTXO :=
  ⟨"cafe", vout, "tb1qold", 1/2000, 3, true, true, true⟩

/-- A consolidation config: threshold 0.001 BTC, at most 5, at least 2. -/
def cfgStd : ConsolidationConfig := ⟨1/1000, 5, 2⟩

/-- A consolidation config with minimum 0 (accepted by `main.go`, which only
rejects `min > max`). -/
def cfgMinZero : ConsolidationConfig := ⟨1/1000, 5, 0⟩

/-- The reference payout tier 1: 0.001 to 0.009 BTC. -/
def rangeTier1 : AmountRange := ⟨1/1000, 9/1000⟩

/-- Spendable eligible UTXOs with ascending amounts 0.00025, 0.0005, 0.00075. -/
def utxoA : UTXO := ⟨"cafe", 0, "tb1qold", 1/4000, 3, true, true, true⟩

def utxoB : UTXO := ⟨"cafe", 1, "tb1qold", 1/2000, 3, true, true, true⟩

def utxoC : UTXO := ⟨"cafe", 2, "tb1qold", 3/4000, 3, true, true, true⟩

/-- A consolidation config capped at 2 UTXOs per transaction. -/
def cfgMaxTwo : ConsolidationConfig := ⟨1/1000, 2, 2⟩

/-- A healthy node whose wallet holds exactly one small UTXO. -/
def oracleOneSmall : RpcOracle :=
  { oracleUp 1 with listUnspent := .ok [smallUTXO 0] }

/-! ## Helper lemmas -/

/-- A string with a nonempty prefix is nonempty. -/
theorem append_ne_empty_of_left {a : String} (b : String) (h : 0 < a.length) :
    a ++ b ≠ "" := by
  intro hc
  have hlen : (a ++ b).length = 0 := by rw [hc]; rfl
  rw [String.length_append] at hlen
  omega

/-- Every error `SendToAddressWithOpReturn` returns carries nonempty text. -/
theorem sendToAddress_error_ne_empty (o : RpcOracle) (address : String)
    (amountBTC feeRateSatsPerVB : ℚ) (opReturnData : String) (e : String)
    (h : (SendToAddressWithOpReturn o address amountBTC feeRateSatsPerVB
      opReturnData).1 = .error e) : e ≠ "" := by
  unfold SendToAddressWithOpReturn at h
  by_cases hd : amountBTC < dustLimitBTC
  · simp only [if_pos hd] at h
    cases h
    decide
  · simp only [if_neg hd] at h
    cases hc : o.createRawNoInputs address amountBTC (0 < opReturnData.length) with
    | error e1 =>
      simp only [hc] at h
      cases h
      exact append_ne_empty_of_left _ (by decide)
    | ok rawTxHex =>
      simp only [hc] at h
      cases hf : o.fundRaw rawTxHex feeRateSatsPerVB with
      | error e2 =>
        simp only [hf] at h
        cases h
        exact append_ne_empty_of_left _ (by decide)
      | ok fundResult =>
        obtain ⟨fundedHex, fee⟩ := fundResult
        simp only [hf] at h
        cases hs : o.signRaw fundedHex with
        | error e3 =>
          simp only [hs] at h
          cases h
          exact append_ne_empty_of_left _ (by decide)
        | ok signResult =>
          obtain ⟨signedHex, complete⟩ := signResult
          simp only [hs] at h
          cases complete with
          | false =>
            rw [if_pos rfl] at h
            cases h
            decide
          | true =>
            rw [if_neg (by decide)] at h
            cases hb : o.sendRaw signedHex with
            | error e4 =>
              simp only [hb] at h
              cases h
              exact append_ne_empty_of_left _ (by decide)
            | ok txid =>
              simp only [hb] at h
              cases h

/-- The selection loop collects, after the already-accumulated prefix, the
first `max - acc.length` eligible outputs of the scanned list. -/
theorem selectSmallUTXOs_eq (cfg : ConsolidationConfig) (l acc : List UTXO) :
    selectSmallUTXOs cfg l acc =
      acc ++ (l.filter (utxoEligible cfg)).take
        (cfg.maxConsolidationUTXOs - acc.length) := by
  induction l generalizing acc with
  | nil => simp [selectSmallUTXOs]
  | cons u rest ih =>
    by_cases h1 : cfg.consolidationAmountThresholdBTC < u.amount ∨ u.spendable = false
    · have helig : utxoEligible cfg u = false := by
        unfold utxoEligible
        rcases h1 with h | h
        · simp [not_le.mpr h]
        · simp [h]
      rw [selectSmallUTXOs, if_pos h1, List.filter_cons, helig]
      simpa using ih acc
    · by_cases h2 : u.amount < dustLimitBTC
      · have helig : utxoEligible cfg u = false := by
          unfold utxoEligible
          simp [not_le.mpr h2]
        rw [selectSmallUTXOs, if_neg h1, if_pos h2, List.filter_cons, helig]
        simpa using ih acc
      · have helig : utxoEligible cfg u = true := by
          push_neg at h1
          unfold utxoEligible
          simp [h1.1, h1.2, not_lt.mp h2]
        rw [selectSmallUTXOs, if_neg h1, if_neg h2, List.filter_cons, helig]
        by_cases h3 : cfg.maxConsolidationUTXOs ≤ acc.length
        · rw [if_pos h3]
          have hz : cfg.maxConsolidationUTXOs - acc.length = 0 := by omega
          simp [hz]
        · rw [if_neg h3, ih (acc ++ [u])]
          have hlen : cfg.maxConsolidationUTXOs - acc.length =
              (cfg.maxConsolidationUTXOs - (acc ++ [u]).length) + 1 := by
            simp only [List.length_append, List.length_singleton]
            omega
          rw [hlen]
          simp [List.take_succ_cons]

/-- `consolidationCandidates` is the `max`-prefix of the eligible outputs of
the amount-sorted UTXO list. -/
theorem consolidationCandidates_eq (cfg : ConsolidationConfig) (utxos : List UTXO) :
    consolidationCandidates cfg utxos =
      ((utxos.mergeSort (fun a b => decide (a.amount ≤ b.amount))).filter
        (utxoEligible cfg)).take cfg.maxConsolidationUTXOs := by
  unfold consolidationCandidates
  rw [selectSmallUTXOs_eq]
  simp

/-- The number of selected UTXOs is `min max E` where `E` counts the eligible
outputs of the node's reply. -/
theorem consolidationCandidates_length (cfg : ConsolidationConfig)
    (utxos : List UTXO) :
    (consolidationCandidates cfg utxos).length =
      min cfg.maxConsolidationUTXOs ((utxos.filter (utxoEligible cfg)).length) := by
  rw [consolidationCandidates_eq, List.length_take]
  congr 1
  exact (((utxos.mergeSort_perm _)).filter (utxoEligible cfg)).length_eq

/-- The amount-sorted UTXO list is pairwise ordered by amount. -/
theorem mergeSort_amount_pairwise (utxos : List UTXO) :
    (utxos.mergeSort (fun a b => decide (a.amount ≤ b.amount))).Pairwise
      (fun a b => a.amount ≤ b.amount) := by
  have h := @List.sorted_mergeSort UTXO
    (fun a b : UTXO => decide (a.amount ≤ b.amount))
    (fun a b c hab hbc => by
      simp only [decide_eq_true_eq] at *
      exact le_trans hab hbc)
    (fun a b => by
      simp only [Bool.or_eq_true, decide_eq_true_eq]
      exact le_total a.amount b.amount)
    utxos
  exact h.imp (fun hab => by simpa using hab)

/-- Every selected UTXO's amount is at most every unselected eligible UTXO's
amount: the selection keeps the smallest eligible outputs. -/
theorem consolidationCandidates_smallest (cfg : ConsolidationConfig)
    (utxos : List UTXO) :
    ∀ u ∈ consolidationCandidates cfg utxos,
      ∀ v ∈ ((utxos.mergeSort (fun a b => decide (a.amount ≤ b.amount))).filter
          (utxoEligible cfg)).drop cfg.maxConsolidationUTXOs,
        u.amount ≤ v.amount := by
  intro u hu v hv
  have hpw : ((utxos.mergeSort (fun a b => decide (a.amount ≤ b.amount))).filter
      (utxoEligible cfg)).Pairwise (fun a b => a.amount ≤ b.amount) :=
    (mergeSort_amount_pairwise utxos).sublist (List.filter_sublist _)
  rw [← List.take_append_drop cfg.maxConsolidationUTXOs
    ((utxos.mergeSort (fun a b => decide (a.amount ≤ b.amount))).filter
      (utxoEligible cfg))] at hpw
  rw [consolidationCandidates_eq] at hu
  exact (List.pairwise_append.mp hpw).2.2 u hu v hv

/-- The record with the given primary key (first match). -/
def lookupId (store : List Transaction) (id : Nat) : Option Transaction :=
  store.find? (fun t => decide (t.id = id))

/-- With pairwise-distinct keys, a member record is what its key looks up. -/
theorem lookupId_of_mem {store : List Transaction}
    (hnd : (store.map (fun t => t.id)).Nodup) {t : Transaction} (ht : t ∈ store) :
    lookupId store t.id = some t := by
  induction store with
  | nil => cases ht
  | cons s rest ih =>
    simp only [List.map_cons, List.nodup_cons] at hnd
    rcases List.mem_cons.mp ht with h | h
    · subst h
      unfold lookupId
      rw [List.find?_cons_of_pos _ (by simp)]
    · have hne : s.id ≠ t.id := by
        intro he
        exact hnd.1 (he ▸ List.mem_map_of_mem (fun t => t.id) h)
      unfold lookupId
      rw [List.find?_cons_of_neg _ (by simpa using hne)]
      exact ih hnd.2 h

/-- De-duplicated keys let a member be recovered from its lookup. -/
theorem eq_of_mem_of_lookupId {store : List Transaction}
    (hnd : (store.map (fun t => t.id)).Nodup) {t t' : Transaction}
    (ht : t ∈ store) (h : lookupId store t.id = some t') : t = t' := by
  rw [lookupId_of_mem hnd ht] at h
  exact Option.some_inj.mp h

/-- `updateTxn` with a key-preserving field update: lookups at the key are
mapped through the update, all other lookups are unchanged. -/
theorem lookupId_updateTxn (store : List Transaction) (id : Nat)
    (f : Transaction → Transaction) (hf : ∀ t, (f t).id = t.id) (j : Nat) :
    lookupId (updateTxn store id f) j =
      if j = id then (lookupId store j).map f else lookupId store j := by
  induction store with
  | nil => by_cases h : j = id <;> simp [lookupId, updateTxn, h]
  | cons s rest ih =>
    unfold updateTxn lookupId at *
    simp only [List.map_cons]
    have hid : (if s.id = id then f s else s).id = s.id := by
      by_cases hs : s.id = id <;> simp [hs, hf]
    by_cases hj : s.id = j
    · rw [List.find?_cons_of_pos _ (by simp only [hid]; simpa using hj)]
      by_cases hji : j = id
      · rw [if_pos hji, List.find?_cons_of_pos _ (by simpa using hj)]
        simp only [Option.map_some']
        rw [if_pos (by rw [hj, hji])]
      · rw [if_neg hji, List.find?_cons_of_pos _ (by simpa using hj)]
        rw [if_neg (by rw [hj]; exact hji)]
    · rw [List.find?_cons_of_neg _ (by simp only [hid]; simpa using hj)]
      by_cases hji : j = id
      · rw [if_pos hji] at ih ⊢
        rw [List.find?_cons_of_neg _ (by simpa using hj)]
        exact ih
      · rw [if_neg hji] at ih ⊢
        rw [List.find?_cons_of_neg _ (by simpa using hj)]
        exact ih

/-- A projection untouched by the field update is preserved by `updateTxn`. -/
theorem updateTxn_map {β : Type} (g : Transaction → β) (store : List Transaction)
    (id : Nat) (f : Transaction → Transaction) (hf : ∀ t, g (f t) = g t) :
    (updateTxn store id f).map g = store.map g := by
  unfold updateTxn
  rw [List.map_map]
  apply List.map_congr_left
  intro t _
  by_cases hs : t.id = id <;> simp [hs, hf]

/-- The record state a processed batch member ends in, as a function of its
own node-call outcome (`processor.go:81-98`): `failed` with the error text,
or `broadcast` with the external transaction id. -/
def applyOutcome (o : RpcOracle) (tx t : Transaction) : Transaction :=
  match sendForTxn o tx with
  | .error e => { t with status := .failed, errorMsg := e }
  | .ok txid => { t with status := .broadcast, onchainTxnID := txid }

/-- `processOne` rewrites exactly the key of the record it processes. -/
theorem lookupId_processOne (o : RpcOracle) (store : List Transaction)
    (tx : Transaction) (j : Nat) :
    lookupId (processOne o store tx) j =
      if j = tx.id then (lookupId store j).map (applyOutcome o tx)
      else lookupId store j := by
  unfold processOne
  cases hs : sendForTxn o tx with
  | error e =>
    dsimp only
    rw [lookupId_updateTxn _ tx.id
        (fun t => { t with status := .failed, errorMsg := e }) (fun t => rfl) j,
      lookupId_updateTxn store tx.id
        (fun t => { t with status := .processing }) (fun t => rfl) j]
    by_cases hj : j = tx.id
    · rw [if_pos hj, if_pos hj, if_pos hj, Option.map_map]
      congr 1
      funext t
      simp [Function.comp, applyOutcome, hs]
    · rw [if_neg hj, if_neg hj, if_neg hj]
  | ok txid =>
    dsimp only
    rw [lookupId_updateTxn _ tx.id
        (fun t => { t with status := .broadcast, onchainTxnID := txid }) (fun t => rfl) j,
      lookupId_updateTxn store tx.id
        (fun t => { t with status := .processing }) (fun t => rfl) j]
    by_cases hj : j = tx.id
    · rw [if_pos hj, if_pos hj, if_pos hj, Option.map_map]
      congr 1
      funext t
      simp [Function.comp, applyOutcome, hs]
    · rw [if_neg hj, if_neg hj, if_neg hj]

/-- `processOne` preserves any field its two updates do not write. -/
theorem processOne_map {β : Type} (g : Transaction → β)
    (hg1 : ∀ t, g { t with status := .processing } = g t)
    (hg2 : ∀ t e, g { t with status := .failed, errorMsg := e } = g t)
    (hg3 : ∀ t txid, g { t with status := .broadcast, onchainTxnID := txid } = g t)
    (o : RpcOracle) (store : List Transaction) (tx : Transaction) :
    (processOne o store tx).map g = store.map g := by
  unfold processOne
  cases hs : sendForTxn o tx with
  | error e => rw [updateTxn_map g _ _ _ (fun t => hg2 t e),
      updateTxn_map g _ _ _ hg1]
  | ok txid => rw [updateTxn_map g _ _ _ (fun t => hg3 t txid),
      updateTxn_map g _ _ _ hg1]

/-- The per-record loop of `processBatch`: records outside the batch keep
their state; each batch record's key looks up the outcome of its own node
call, independent of the other records' outcomes. -/
theorem foldl_processOne_lookupId (o : RpcOracle) (txs : List Transaction)
    (store : List Transaction) (hnd : (txs.map (fun t => t.id)).Nodup) :
    (∀ j, j ∉ txs.map (fun t => t.id) →
      lookupId (txs.foldl (fun st tx => processOne o st tx) store) j =
        lookupId store j) ∧
    (∀ tx ∈ txs,
      lookupId (txs.foldl (fun st tx => processOne o st tx) store) tx.id =
        (lookupId store tx.id).map (applyOutcome o tx)) := by
  induction txs generalizing store with
  | nil => exact ⟨fun j _ => rfl, fun tx h => absurd h (List.not_mem_nil tx)⟩
  | cons t rest ih =>
    simp only [List.map_cons, List.nodup_cons] at hnd
    obtain ⟨hn1, hn2⟩ := hnd
    constructor
    · intro j hj
      simp only [List.map_cons, List.mem_cons, not_or] at hj
      rw [List.foldl_cons, (ih (processOne o store t) hn2).1 j hj.2,
        lookupId_processOne, if_neg hj.1]
    · intro tx htx
      rcases List.mem_cons.mp htx with h | h
      · subst h
        rw [List.foldl_cons, (ih (processOne o store tx) hn2).1 tx.id hn1,
          lookupId_processOne, if_pos rfl]
      · have hne : tx.id ≠ t.id := by
          intro he
          exact hn1 (he ▸ List.mem_map_of_mem (fun t => t.id) h)
        rw [List.foldl_cons, (ih (processOne o store t) hn2).2 tx h,
          lookupId_processOne, if_neg hne]

/-- Batch members are `pending` records of the store. -/
theorem mem_GetTransactions {store : List Transaction} {status : TxnStatus}
    {limit : Nat} {t : Transaction} (h : t ∈ GetTransactions store status limit) :
    t ∈ store ∧ t.status = status := by
  unfold GetTransactions at h
  have h1 : t ∈ store.filter (fun t => decide (t.status = status)) :=
    (List.take_sublist _ _).subset h
  refine ⟨List.mem_of_mem_filter h1, ?_⟩
  simpa using List.of_mem_filter h1

/-- The batch's keys are a sublist of the store's keys. -/
theorem GetTransactions_map_id_sublist (store : List Transaction)
    (status : TxnStatus) (limit : Nat) :
    ((GetTransactions store status limit).map (fun t => t.id)).Sublist
      (store.map (fun t => t.id)) := by
  unfold GetTransactions
  exact ((List.take_sublist _ _).trans (List.filter_sublist _)).map
    (fun t : Transaction => t.id)

/-- `processBatch`, when it admits the batch: records outside the batch are
untouched; each batch record ends in the state its own node-call outcome
dictates.  (When the batch is rejected nothing changes; see
`batch_admission_all_or_nothing`.) -/
theorem processBatch_lookupId (o : RpcOracle) (store : List Transaction)
    (hnd : (store.map (fun t => t.id)).Nodup)
    (hbal : ¬ GetAvailableWalletBalance o <
      ((GetTransactions store .pending 50).map (fun t => t.amountBTC)).sum) :
    (∀ j, j ∉ (GetTransactions store .pending 50).map (fun t => t.id) →
      lookupId (processBatch o store) j = lookupId store j) ∧
    (∀ tx ∈ GetTransactions store .pending 50,
      lookupId (processBatch o store) tx.id = some (applyOutcome o tx tx)) := by
  have hbnd : ((GetTransactions store .pending 50).map (fun t => t.id)).Nodup :=
    hnd.sublist (GetTransactions_map_id_sublist store .pending 50)
  unfold processBatch
  by_cases he : (GetTransactions store .pending 50).isEmpty
  · rw [if_pos he]
    refine ⟨fun j _ => rfl, fun tx htx => absurd htx ?_⟩
    rw [List.isEmpty_iff] at he
    simp [he]
  · rw [if_neg he]
    dsimp only
    rw [if_neg hbal]
    have h := foldl_processOne_lookupId o (GetTransactions store .pending 50)
      store hbnd
    refine ⟨h.1, fun tx htx => ?_⟩
    rw [h.2 tx htx, lookupId_of_mem hnd (mem_GetTransactions htx).1,
      Option.map_some']

/-- The per-record loop preserves any field it never writes. -/
theorem foldl_processOne_map {β : Type} (g : Transaction → β)
    (hg1 : ∀ t, g { t with status := .processing } = g t)
    (hg2 : ∀ t e, g { t with status := .failed, errorMsg := e } = g t)
    (hg3 : ∀ t txid, g { t with status := .broadcast, onchainTxnID := txid } = g t)
    (o : RpcOracle) (txs store : List Transaction) :
    ((txs.foldl (fun st tx => processOne o st tx) store)).map g = store.map g := by
  induction txs generalizing store with
  | nil => rfl
  | cons t rest ih =>
    rw [List.foldl_cons, ih (processOne o store t),
      processOne_map g hg1 hg2 hg3 o store t]

/-- `processBatch` preserves any field the loop never writes. -/
theorem processBatch_map {β : Type} (g : Transaction → β)
    (hg1 : ∀ t, g { t with status := .processing } = g t)
    (hg2 : ∀ t e, g { t with status := .failed, errorMsg := e } = g t)
    (hg3 : ∀ t txid, g { t with status := .broadcast, onchainTxnID := txid } = g t)
    (o : RpcOracle) (store : List Transaction) :
    (processBatch o store).map g = store.map g := by
  unfold processBatch
  by_cases he : (GetTransactions store .pending 50).isEmpty
  · rw [if_pos he]
  · rw [if_neg he]
    dsimp only
    by_cases hb : GetAvailableWalletBalance o <
        ((GetTransactions store .pending 50).map (fun t => t.amountBTC)).sum
    · rw [if_pos hb]
    · rw [if_neg hb]
      exact foldl_processOne_map g hg1 hg2 hg3 o _ store

/-- Keys are pairwise distinct and bounded by the store length (gorm
autoincrement primary keys; records are never deleted). -/
def WellFormed (store : List Transaction) : Prop :=
  (store.map (fun t => t.id)).Nodup ∧ ∀ t ∈ store, t.id < store.length

/-- Every system step preserves well-formedness of the store. -/
theorem wellFormed_step (store : List Transaction) (op : Op)
    (h : WellFormed store) : WellFormed (step store op) := by
  obtain ⟨hnd, hbd⟩ := h
  cases op with
  | submit cfg turnstileOk addrOk isAdminIP now address clientIP amountBTC =>
    show WellFormed (submitHandler cfg store turnstileOk addrOk isAdminIP now
      address clientIP store.length amountBTC).1
    unfold submitHandler
    split
    · exact ⟨hnd, hbd⟩
    · split
      · exact ⟨hnd, hbd⟩
      · split
        · exact ⟨hnd, hbd⟩
        · split
          · exact ⟨hnd, hbd⟩
          · constructor
            · rw [List.map_append]
              apply List.Nodup.append hnd (by simp [newSubmitRecord])
              intro a ha hb
              simp only [newSubmitRecord, List.map_cons, List.map_nil,
                List.mem_singleton] at hb
              subst hb
              obtain ⟨t, ht, hta⟩ := List.mem_map.mp ha
              exact absurd hta (Nat.ne_of_lt (hbd t ht))
            · intro t ht
              rw [List.length_append]
              rcases List.mem_append.mp ht with h | h
              · exact Nat.lt_of_lt_of_le (hbd t h) (Nat.le_add_right _ _)
              · simp only [List.mem_singleton] at h
                subst h
                simp [newSubmitRecord]
  | batch o =>
    show WellFormed (processBatch o store)
    have hmap : (processBatch o store).map (fun t => t.id) =
        store.map (fun t => t.id) :=
      processBatch_map (fun t => t.id) (fun t => rfl) (fun t e => rfl)
        (fun t txid => rfl) o store
    have hlen : (processBatch o store).length = store.length := by
      have := congrArg List.length hmap
      simpa using this
    refine ⟨hmap ▸ hnd, fun t ht => ?_⟩
    have : t.id ∈ (processBatch o store).map (fun t => t.id) :=
      List.mem_map_of_mem (fun t => t.id) ht
    rw [hmap] at this
    obtain ⟨t', ht', he⟩ := List.mem_map.mp this
    rw [hlen, ← he]
    exact hbd t' ht'

/-- Every reachable store is well-formed. -/
theorem wellFormed_run (ops : List Op) : WellFormed (run ops) := by
  have h : ∀ (l : List Op) (s : List Transaction), WellFormed s →
      WellFormed (l.foldl step s) := by
    intro l
    induction l with
    | nil => exact fun s hs => hs
    | cons op rest ih =>
      intro s hs
      exact ih (step s op) (wellFormed_step s op hs)
  exact h ops [] ⟨List.nodup_nil, fun t ht => absurd ht (List.not_mem_nil t)⟩

/-- A successful lookup is unaffected by records appended later. -/
theorem lookupId_append_of_some {store : List Transaction} {id : Nat}
    {t : Transaction} (h : lookupId store id = some t) (rest : List Transaction) :
    lookupId (store ++ rest) id = some t := by
  induction store with
  | nil => cases h
  | cons s ss ih =>
    unfold lookupId at *
    by_cases hs : s.id = id
    · rw [List.find?_cons_of_pos _ (by simpa using hs)] at h
      rw [List.cons_append, List.find?_cons_of_pos _ (by simpa using hs)]
      exact h
    · rw [List.find?_cons_of_neg _ (by simpa using hs)] at h
      rw [List.cons_append, List.find?_cons_of_neg _ (by simpa using hs)]
      exact ih h

/-- A batch cycle that finds no pending work, or whose live balance is below
the summed pending amount, leaves the store untouched. -/
theorem processBatch_insufficient (o : RpcOracle) (store : List Transaction)
    (hb : GetAvailableWalletBalance o <
      ((GetTransactions store .pending 50).map (fun t => t.amountBTC)).sum) :
    processBatch o store = store := by
  unfold processBatch
  by_cases he : (GetTransactions store .pending 50).isEmpty
  · rw [if_pos he]
  · rw [if_neg he]
    dsimp only
    rw [if_pos hb]

/-- Lookups outside the batch's keys are unchanged by a batch cycle,
whether or not the batch was admitted. -/
theorem processBatch_lookupId_not_mem (o : RpcOracle) (store : List Transaction)
    (hnd : (store.map (fun t => t.id)).Nodup) (j : Nat)
    (hj : j ∉ (GetTransactions store .pending 50).map (fun t => t.id)) :
    lookupId (processBatch o store) j = lookupId store j := by
  unfold processBatch
  by_cases he : (GetTransactions store .pending 50).isEmpty
  · rw [if_pos he]
  · rw [if_neg he]
    dsimp only
    by_cases hb : GetAvailableWalletBalance o <
        ((GetTransactions store .pending 50).map (fun t => t.amountBTC)).sum
    · rw [if_pos hb]
    · rw [if_neg hb]
      exact (foldl_processOne_lookupId o _ store
        (hnd.sublist (GetTransactions_map_id_sublist store .pending 50))).1 j hj

/-- The submit handler either leaves the store unchanged or, when no record
with the submitted address exists, appends exactly one new pending record. -/
theorem submitHandler_fst (cfg : SubmitConfig) (store : List Transaction)
    (turnstileOk addrOk isAdminIP : Bool) (now : ℚ) (address clientIP : String)
    (nextId : Nat) (amountBTC : ℚ) :
    (submitHandler cfg store turnstileOk addrOk isAdminIP now address clientIP
      nextId amountBTC).1 = store ∨
    ((submitHandler cfg store turnstileOk addrOk isAdminIP now address clientIP
      nextId amountBTC).1 =
        store ++ [newSubmitRecord nextId now address clientIP amountBTC] ∧
      store.any (fun t => decide (t.address = address)) = false) := by
  unfold submitHandler
  split
  · left; rfl
  · split
    · left; rfl
    · split
      · left; rfl
      · by_cases ha : store.any (fun t => decide (t.address = address))
        · rw [if_pos ha]
          left; rfl
        · rw [if_neg ha]
          right
          exact ⟨rfl, by simpa using ha⟩

/-- A record in a terminal state is untouched by any system step. -/
theorem step_preserves_terminal (store : List Transaction) (op : Op)
    (hwf : WellFormed store) {t : Transaction} (ht : t ∈ store)
    (hterm : t.status = .broadcast ∨ t.status = .failed) :
    lookupId (step store op) t.id = some t := by
  have hl : lookupId store t.id = some t := lookupId_of_mem hwf.1 ht
  cases op with
  | submit cfg turnstileOk addrOk isAdminIP now address clientIP amountBTC =>
    show lookupId (submitHandler cfg store turnstileOk addrOk isAdminIP now
      address clientIP store.length amountBTC).1 t.id = some t
    rcases submitHandler_fst cfg store turnstileOk addrOk isAdminIP now address
      clientIP store.length amountBTC with h | ⟨h, _⟩
    · rw [h]; exact hl
    · rw [h]; exact lookupId_append_of_some hl _
  | batch o =>
    show lookupId (processBatch o store) t.id = some t
    rw [processBatch_lookupId_not_mem o store hwf.1 t.id ?_]
    · exact hl
    · intro hmem
      obtain ⟨tx, htx, hid⟩ := List.mem_map.mp hmem
      have htx' := mem_GetTransactions htx
      have : tx = t := eq_of_mem_of_lookupId hwf.1 htx'.1 (hid ▸ hl)
      rcases hterm with hb | hb <;> rw [← this, htx'.2] at hb <;> cases hb

/-- Terminal records survive any further operation sequence unchanged. -/
theorem foldl_step_preserves_terminal (extra : List Op) (s : List Transaction)
    (hwf : WellFormed s) {t : Transaction} (ht : t ∈ s)
    (hterm : t.status = .broadcast ∨ t.status = .failed) :
    lookupId (extra.foldl step s) t.id = some t := by
  induction extra generalizing s with
  | nil => exact lookupId_of_mem hwf.1 ht
  | cons op rest ih =>
    rw [List.foldl_cons]
    have hstep := step_preserves_terminal s op hwf ht hterm
    exact ih (step s op) (wellFormed_step s op hwf)
      (List.mem_of_find?_eq_some hstep)

/-- Destination addresses stay pairwise distinct through every system step. -/
theorem addresses_nodup_step (store : List Transaction) (op : Op)
    (h : (store.map (fun t => t.address)).Nodup) :
    ((step store op).map (fun t => t.address)).Nodup := by
  cases op with
  | submit cfg turnstileOk addrOk isAdminIP now address clientIP amountBTC =>
    show ((submitHandler cfg store turnstileOk addrOk isAdminIP now address
      clientIP store.length amountBTC).1.map (fun t => t.address)).Nodup
    rcases submitHandler_fst cfg store turnstileOk addrOk isAdminIP now address
      clientIP store.length amountBTC with hc | ⟨hc, hfresh⟩
    · rw [hc]; exact h
    · rw [hc, List.map_append]
      apply List.Nodup.append h (by simp [newSubmitRecord])
      intro a ha hb
      simp only [newSubmitRecord, List.map_cons, List.map_nil,
        List.mem_singleton] at hb
      subst hb
      obtain ⟨t, ht, hta⟩ := List.mem_map.mp ha
      rw [List.any_eq_false] at hfresh
      exact absurd (by simpa using hta) (by simpa using hfresh t ht)
  | batch o =>
    show (((processBatch o store)).map (fun t => t.address)).Nodup
    rw [processBatch_map (fun t => t.address) (fun t => rfl) (fun t e => rfl)
      (fun t txid => rfl) o store]
    exact h

/-- Every reachable store has pairwise-distinct destination addresses. -/
theorem addresses_nodup_run (ops : List Op) :
    ((run ops).map (fun t => t.address)).Nodup := by
  have h : ∀ (l : List Op) (s : List Transaction),
      (s.map (fun t => t.address)).Nodup →
      ((l.foldl step s).map (fun t => t.address)).Nodup := by
    intro l
    induction l with
    | nil => exact fun s hs => hs
    | cons op rest ih => exact fun s hs => ih _ (addresses_nodup_step s op hs)
  exact h ops [] List.nodup_nil

/-- A batch record below the dust floor always fails the node call
(`btc.go:156-158`). -/
theorem sendForTxn_dust (o : RpcOracle) (tx : Transaction)
    (h : tx.amountBTC < dustLimitBTC) :
    sendForTxn o tx = .error "Amount too low" := by
  unfold sendForTxn SendToAddressWithOpReturn
  rw [if_pos h]

/-- The amount field survives a record's batch outcome. -/
theorem applyOutcome_amountBTC (o : RpcOracle) (tx t : Transaction) :
    (applyOutcome o tx t).amountBTC = t.amountBTC := by
  unfold applyOutcome
  cases sendForTxn o tx <;> rfl

/-- One step preserves "below-dust records are never `broadcast`". -/
theorem dust_invariant_step (store : List Transaction) (op : Op)
    (hwf : WellFormed store)
    (h : ∀ t ∈ store, t.amountBTC < dustLimitBTC → t.status ≠ .broadcast) :
    ∀ t ∈ step store op, t.amountBTC < dustLimitBTC → t.status ≠ .broadcast := by
  cases op with
  | submit cfg turnstileOk addrOk isAdminIP now address clientIP amountBTC =>
    intro t ht hlt
    rcases submitHandler_fst cfg store turnstileOk addrOk isAdminIP now address
      clientIP store.length amountBTC with hc | ⟨hc, _⟩
    · rw [show step store (.submit cfg turnstileOk addrOk isAdminIP now address
        clientIP amountBTC) = (submitHandler cfg store turnstileOk addrOk
        isAdminIP now address clientIP store.length amountBTC).1 from rfl,
        hc] at ht
      exact h t ht hlt
    · rw [show step store (.submit cfg turnstileOk addrOk isAdminIP now address
        clientIP amountBTC) = (submitHandler cfg store turnstileOk addrOk
        isAdminIP now address clientIP store.length amountBTC).1 from rfl,
        hc] at ht
      rcases List.mem_append.mp ht with hm | hm
      · exact h t hm hlt
      · simp only [List.mem_singleton] at hm
        subst hm
        simp [newSubmitRecord]
  | batch o =>
    intro t' ht' hlt
    rw [show step store (.batch o) = processBatch o store from rfl] at ht'
    by_cases hb : GetAvailableWalletBalance o <
        ((GetTransactions store .pending 50).map (fun t => t.amountBTC)).sum
    · rw [processBatch_insufficient o store hb] at ht'
      exact h t' ht' hlt
    · have hnd' : ((processBatch o store).map (fun t => t.id)).Nodup := by
        rw [processBatch_map (fun t => t.id) (fun t => rfl) (fun t e => rfl)
          (fun t txid => rfl) o store]
        exact hwf.1
      have hl' : lookupId (processBatch o store) t'.id = some t' :=
        lookupId_of_mem hnd' ht'
      by_cases hmem : t'.id ∈ (GetTransactions store .pending 50).map (fun t => t.id)
      · obtain ⟨tx, htx, hid⟩ := List.mem_map.mp hmem
        have hbatch := (processBatch_lookupId o store hwf.1 hb).2 tx htx
        rw [hid, hl'] at hbatch
        have ht'eq : t' = applyOutcome o tx tx := Option.some_inj.mp hbatch
        have hdust : tx.amountBTC < dustLimitBTC := by
          have := applyOutcome_amountBTC o tx tx
          rw [← ht'eq] at this
          rw [← this]
          exact hlt
        intro hbc
        rw [ht'eq] at hbc
        unfold applyOutcome at hbc
        rw [sendForTxn_dust o tx hdust] at hbc
        cases hbc
      · rw [processBatch_lookupId_not_mem o store hwf.1 t'.id hmem] at hl'
        exact h t' (List.mem_of_find?_eq_some hl') hlt

/-- In every reachable store, a record below the dust floor is not `broadcast`. -/
theorem dust_invariant_run (ops : List Op) :
    ∀ t ∈ run ops, t.amountBTC < dustLimitBTC → t.status ≠ .broadcast := by
  have h : ∀ (l : List Op) (s : List Transaction), WellFormed s →
      (∀ t ∈ s, t.amountBTC < dustLimitBTC → t.status ≠ .broadcast) →
      ∀ t ∈ l.foldl step s, t.amountBTC < dustLimitBTC → t.status ≠ .broadcast := by
    intro l
    induction l with
    | nil => exact fun s _ hs => hs
    | cons op rest ih =>
      intro s hwf hs
      exact ih (step s op) (wellFormed_step s op hwf)
        (dust_invariant_step s op hwf hs)
  exact h ops [] ⟨List.nodup_nil, fun t ht => absurd ht (List.not_mem_nil t)⟩
    (fun t ht => absurd ht (List.not_mem_nil t))

/-! ## Claim theorems -/

/-- C1: Batch admission is all-or-nothing: each batch cycle reads at most 50
pending records, sums their amounts and queries the live node balance
(trusted + untrusted); when the live available balance is strictly below the
sum, the cycle leaves every record (status, external transaction id, error
text) untouched. -/
theorem batch_admission_all_or_nothing (o : RpcOracle) (store : List Transaction) :
    (GetTransactions store .pending 50).length ≤ 50 ∧
    (∀ b : Balances, o.getBalances = .ok b →
      GetAvailableWalletBalance o = b.mine.trusted + b.mine.untrusted) ∧
    (GetAvailableWalletBalance o <
        ((GetTransactions store .pending 50).map (fun t => t.amountBTC)).sum →
      processBatch o store = store) := by
  refine ⟨?_, ?_, processBatch_insufficient o store⟩
  · unfold GetTransactions
    rw [List.length_take]
    exact min_le_left _ _
  · intro b hb
    unfold GetAvailableWalletBalance
    rw [hb]

/-- C1 witness: a node with zero available balance cannot fund a 1-BTC
pending request, so the store survives the cycle unchanged. -/
theorem batch_admission_all_or_nothing_w :
    processBatch oracleDown storeOnePending = storeOnePending :=
  (batch_admission_all_or_nothing oracleDown storeOnePending).2.2 (by
    norm_num [GetAvailableWalletBalance, oracleDown, GetTransactions,
      storeOnePending])

/-- C2: Terminal states are never left: in every reachable execution, once a
record's status is `broadcast` or `failed` no later operation changes it; in
particular the batch processor selects only `pending` records, so a `failed`
record is never re-picked or retried. -/
theorem terminal_states_never_left :
    (∀ (ops extra : List Op) (t : Transaction), t ∈ run ops →
      t.status = .broadcast ∨ t.status = .failed →
      ∀ t' ∈ run (ops ++ extra), t'.id = t.id → t'.status = t.status) ∧
    (∀ (store : List Transaction) (t : Transaction),
      t ∈ GetTransactions store .pending 50 → t.status = .pending) := by
  constructor
  · intro ops extra t ht hterm t' ht' hid
    have hrun : run (ops ++ extra) = extra.foldl step (run ops) := by
      unfold run
      rw [List.foldl_append]
    have hl := foldl_step_preserves_terminal extra (run ops)
      (wellFormed_run ops) ht hterm
    rw [← hrun] at hl
    have hl' := lookupId_of_mem (wellFormed_run (ops ++ extra)).1 ht'
    rw [hid] at hl'
    rw [Option.some_inj.mp (hl'.symm.trans hl)]
  · intro store t ht
    exact (mem_GetTransactions ht).2

/-- C2 witness: a request that failed its broadcast stays `failed` through a
later batch cycle against a healthy node. -/
theorem terminal_states_never_left_w :
    txnFailed ∈ run opsOneFailed ∧ txnFailed.status = TxnStatus.failed := by
  have hsteady : run opsOneFailed = [txnFailed] := by
    norm_num [opsOneFailed, run, step, submitHandler, recentCountForIP,
      newSubmitRecord, processBatch, GetTransactions, GetAvailableWalletBalance,
      oracleBuildFails, oracleUp, processOne, sendForTxn,
      SendToAddressWithOpReturn, dustLimitBTC, feeSatsPerVBLowerLimit,
      defaultOpReturn, updateTxn, txnFailed]
    rfl
  have hmem : txnFailed ∈ run opsOneFailed := by
    rw [hsteady]
    exact List.mem_singleton_self _
  refine ⟨hmem, ?_⟩
  exact terminal_states_never_left.1 opsOneFailed [Op.batch (oracleUp 5)]
    txnFailed hmem (Or.inr rfl) txnFailed (by
      have hrun : run (opsOneFailed ++ [Op.batch (oracleUp 5)]) =
          step (run opsOneFailed) (Op.batch (oracleUp 5)) := by
        unfold run
        rw [List.foldl_append]
        rfl
      have hempty : GetTransactions [txnFailed] .pending 50 = [] := by
        norm_num [GetTransactions, txnFailed]
        decide
      have hpb : processBatch (oracleUp 5) [txnFailed] = [txnFailed] := by
        unfold processBatch
        rw [hempty]
        rfl
      rw [hrun, hsteady]
      show txnFailed ∈ processBatch (oracleUp 5) [txnFailed]
      rw [hpb]
      exact List.mem_singleton_self _) rfl

/-- A successful send's transaction id is a value the node's
`sendrawtransaction` returned. -/
theorem sendToAddress_ok_exists (o : RpcOracle) (address : String)
    (amountBTC feeRateSatsPerVB : ℚ) (opReturnData : String) (txid : String)
    (h : (SendToAddressWithOpReturn o address amountBTC feeRateSatsPerVB
      opReturnData).1 = .ok txid) : ∃ hex, o.sendRaw hex = .ok txid := by
  unfold SendToAddressWithOpReturn at h
  by_cases hd : amountBTC < dustLimitBTC
  · rw [if_pos hd] at h
    cases h
  · rw [if_neg hd] at h
    cases hc : o.createRawNoInputs address amountBTC (0 < opReturnData.length) with
    | error e1 =>
      simp only [hc] at h
      cases h
    | ok rawTxHex =>
      simp only [hc] at h
      cases hf : o.fundRaw rawTxHex feeRateSatsPerVB with
      | error e2 =>
        simp only [hf] at h
        cases h
      | ok fundResult =>
        obtain ⟨fundedHex, fee⟩ := fundResult
        simp only [hf] at h
        cases hs : o.signRaw fundedHex with
        | error e3 =>
          simp only [hs] at h
          cases h
        | ok signResult =>
          obtain ⟨signedHex, complete⟩ := signResult
          simp only [hs] at h
          cases complete with
          | false =>
            rw [if_pos rfl] at h
            cases h
          | true =>
            rw [if_neg (by decide)] at h
            cases hb : o.sendRaw signedHex with
            | error e4 =>
              simp only [hb] at h
              cases h
            | ok txid' =>
              simp only [hb] at h
              cases h
              exact ⟨signedHex, hb⟩

/-- C3: For every record of an admitted batch, a failed node call sets the
record to `failed` with the (nonempty) error text, a successful call sets it
to `broadcast` with the returned transaction id (nonempty whenever the node
returns nonempty ids); each record's outcome is a function of its own node
call alone, so one record's failure never aborts the rest of the batch. -/
theorem batch_per_record_outcome (o : RpcOracle) (store : List Transaction)
    (tx : Transaction) (hnd : (store.map (fun t => t.id)).Nodup)
    (htx : tx ∈ GetTransactions store .pending 50)
    (hbal : ¬ GetAvailableWalletBalance o <
      ((GetTransactions store .pending 50).map (fun t => t.amountBTC)).sum) :
    (∀ e, sendForTxn o tx = .error e →
      lookupId (processBatch o store) tx.id =
        some { tx with status := .failed, errorMsg := e } ∧ e ≠ "") ∧
    (∀ txid, sendForTxn o tx = .ok txid →
      lookupId (processBatch o store) tx.id =
        some { tx with status := .broadcast, onchainTxnID := txid } ∧
      ((∀ hex t, o.sendRaw hex = .ok t → t ≠ "") → txid ≠ "")) := by
  have h := (processBatch_lookupId o store hnd hbal).2 tx htx
  constructor
  · intro e he
    refine ⟨?_, ?_⟩
    · rw [h]
      unfold applyOutcome
      rw [he]
    · unfold sendForTxn at he
      exact sendToAddress_error_ne_empty o tx.address tx.amountBTC
        (feeSatsPerVBLowerLimit * 1.15) defaultOpReturn e he
  · intro txid hok
    refine ⟨?_, ?_⟩
    · rw [h]
      unfold applyOutcome
      rw [hok]
    · intro hne
      unfold sendForTxn at hok
      obtain ⟨hex, hhex⟩ := sendToAddress_ok_exists o tx.address tx.amountBTC
        (feeSatsPerVBLowerLimit * 1.15) defaultOpReturn txid hok
      exact hne hex txid hhex

/-- C3 witness: with a node that fails every transaction build, the second of
two pending records still gets processed and ends `failed` with the wrapped
error text — the first record's failure did not abort the batch. -/
theorem batch_per_record_outcome_w :
    lookupId (processBatch (oracleBuildFails 5) storeTwoPending) 1 =
      some ⟨1, 0, "tb1qbbb", "1.2.3.4", "", 1, .failed,
        "createrawtransaction failed: boom"⟩ ∧
    "createrawtransaction failed: boom" ≠ "" := by
  have h := (batch_per_record_outcome (oracleBuildFails 5) storeTwoPending
    ⟨1, 0, "tb1qbbb", "1.2.3.4", "", 1, .pending, ""⟩
    (by norm_num [storeTwoPending])
    (by norm_num [GetTransactions, storeTwoPending])
    (by norm_num [GetTransactions, GetAvailableWalletBalance, oracleBuildFails,
      oracleUp, storeTwoPending])).1
    "createrawtransaction failed: boom"
    (by norm_num [sendForTxn, SendToAddressWithOpReturn, oracleBuildFails,
      oracleUp, dustLimitBTC]
        rfl)
  exact h

/-- C4: When consolidation proceeds with `N` pinned inputs totalling `S` BTC,
the single output amount equals `S - (10.5 + 148*N + 31*num_outputs)*0.15/1e8`
(num_outputs = 2 with a memo payload, else 1); when that amount is ≤ 0 the
call returns the "total amount too small to cover fees" error with no
transaction created, signed or broadcast. -/
theorem consolidate_output_amount_formula (o : RpcOracle) (inputs : List UTXO)
    (totalAmountBTC : ℚ) (address opReturnData : String) :
    (totalAmountBTC - (10.5 + 148 * (inputs.length : ℚ) +
        31 * (if 0 < opReturnData.length then (2:ℚ) else 1)) * 0.15 / 100000000 ≤ 0 →
      Consolidate o inputs totalAmountBTC address opReturnData =
        (.error "total amount too small to cover fees", [])) ∧
    (0 < totalAmountBTC - (10.5 + 148 * (inputs.length : ℚ) +
        31 * (if 0 < opReturnData.length then (2:ℚ) else 1)) * 0.15 / 100000000 →
      (Consolidate o inputs totalAmountBTC address opReturnData).2.head? =
        some (.createrawtransaction inputs.length address
          (totalAmountBTC - (10.5 + 148 * (inputs.length : ℚ) +
            31 * (if 0 < opReturnData.length then (2:ℚ) else 1)) * 0.15 / 100000000)
          (0 < opReturnData.length))) := by
  have hlen : (inputs.mergeSort (fun a b => decide (b.amount ≤ a.amount))).length
      = inputs.length := by simp
  have hcast : (((if 0 < opReturnData.length then 2 else 1 : ℕ)) : ℚ)
      = (if 0 < opReturnData.length then (2:ℚ) else 1) := by
    by_cases h : 0 < opReturnData.length <;> simp [h]
  have hEq : totalAmountBTC - (10.5 +
        ((inputs.mergeSort (fun a b => decide (b.amount ≤ a.amount))).length : ℚ) * 148 +
        ((if 0 < opReturnData.length then 2 else 1 : ℕ) : ℚ) * 31) * 0.15 / 100000000
      = totalAmountBTC - (10.5 + 148 * (inputs.length : ℚ) +
        31 * (if 0 < opReturnData.length then (2:ℚ) else 1)) * 0.15 / 100000000 := by
    rw [hlen, hcast]
    ring
  constructor
  · intro hle
    unfold Consolidate
    dsimp only
    rw [hEq, if_pos hle]
  · intro hpos
    unfold Consolidate
    dsimp only
    rw [hEq, hlen, if_neg (not_le.mpr hpos)]
    cases o.createRawWithInputs
        (inputs.mergeSort (fun a b => decide (b.amount ≤ a.amount))) address
        (totalAmountBTC - (10.5 + 148 * (inputs.length : ℚ) +
          31 * (if 0 < opReturnData.length then (2:ℚ) else 1)) * 0.15 / 100000000)
        (0 < opReturnData.length) with
    | error e => rfl
    | ok rawTxHex =>
      dsimp only
      cases o.signRaw rawTxHex with
      | error e => rfl
      | ok signResult =>
        obtain ⟨signedHex, complete⟩ := signResult
        cases complete with
        | false => rfl
        | true =>
          dsimp only
          cases o.sendRaw signedHex with
          | error e => rfl
          | ok txid => rfl

/-- C4 witness: 3 pinned inputs totalling 0 BTC cannot cover the fee, so
consolidation fails with the explicit error and makes no node call. -/
theorem consolidate_output_amount_formula_w :
    Consolidate oracleDown [smallUTXO 0, smallUTXO 1, smallUTXO 2] 0 "tb1qdest"
      defaultOpReturn = (.error "total amount too small to cover fees", []) :=
  (consolidate_output_amount_formula oracleDown
    [smallUTXO 0, smallUTXO 1, smallUTXO 2] 0 "tb1qdest" defaultOpReturn).1
    (by
      rw [if_pos (by decide : 0 < defaultOpReturn.length)]
      norm_num)

/-- C5: From every node UTXO list, the selection collects exactly
`min(MaxConsolidationUTXOs, E)` outputs, `E` the number of eligible ones
(spendable, at or below the threshold, at or above the 1000-satoshi dust
floor); scanning in ascending amount order makes the selected set the
smallest eligible outputs. -/
theorem consolidation_selects_smallest_eligible (cfg : ConsolidationConfig)
    (utxos : List UTXO) :
    (consolidationCandidates cfg utxos).length =
      min cfg.maxConsolidationUTXOs ((utxos.filter (utxoEligible cfg)).length) ∧
    ∀ u ∈ consolidationCandidates cfg utxos,
      ∀ v ∈ ((utxos.mergeSort (fun a b => decide (a.amount ≤ b.amount))).filter
          (utxoEligible cfg)).drop cfg.maxConsolidationUTXOs,
        u.amount ≤ v.amount :=
  ⟨consolidationCandidates_length cfg utxos,
   consolidationCandidates_smallest cfg utxos⟩

/-- C5 witness: with 3 eligible outputs and a cap of 2, exactly 2 are
selected, and a selected output is no larger than the one left out. -/
theorem consolidation_selects_smallest_eligible_w :
    (consolidationCandidates cfgMaxTwo [utxoA, utxoB, utxoC]).length = 2 ∧
    utxoA.amount ≤ utxoC.amount := by
  have hms : ([utxoA, utxoB, utxoC].mergeSort
      (fun a b => decide (a.amount ≤ b.amount))) = [utxoA, utxoB, utxoC] :=
    List.mergeSort_of_sorted (by
      norm_num [List.pairwise_cons, utxoA, utxoB, utxoC])
  constructor
  · rw [(consolidation_selects_smallest_eligible cfgMaxTwo [utxoA, utxoB, utxoC]).1]
    norm_num [utxoEligible, utxoA, utxoB, utxoC, cfgMaxTwo, dustLimitBTC]
  · exact (consolidation_selects_smallest_eligible cfgMaxTwo
      [utxoA, utxoB, utxoC]).2 utxoA
      (by
        rw [consolidationCandidates_eq, hms]
        norm_num [utxoEligible, utxoA, utxoB, utxoC, cfgMaxTwo, dustLimitBTC])
      utxoC
      (by
        rw [hms]
        norm_num [utxoEligible, utxoA, utxoB, utxoC, cfgMaxTwo, dustLimitBTC])

/-- Appending to a nonempty string keeps it nonempty (length form). -/
theorem append_length_pos (a b : String) (h : 0 < a.length) :
    0 < (a ++ b).length := by
  rw [String.length_append]
  omega

/-- The "no UTXOs below threshold" skip reason is never empty. -/
theorem fmtNoUTXOsSkipReason_ne_empty (thresholdBTC : ℚ) :
    fmtNoUTXOsSkipReason thresholdBTC ≠ "" := by
  unfold fmtNoUTXOsSkipReason
  exact append_ne_empty_of_left _ (append_length_pos _ _ (by decide))

/-- The "too few UTXOs" skip reason is never empty. -/
theorem fmtTooFewSkipReason_ne_empty (found minNeeded : Nat) :
    fmtTooFewSkipReason found minNeeded ≠ "" := by
  unfold fmtTooFewSkipReason
  exact append_ne_empty_of_left _
    (append_length_pos _ _ (append_length_pos _ _ (append_length_pos _ _
      (by decide))))

/-- A successful consolidation's transaction id is a value the node's
`sendrawtransaction` returned. -/
theorem consolidate_ok_exists (o : RpcOracle) (inputs : List UTXO)
    (totalAmountBTC : ℚ) (address opReturnData : String) (txid : String)
    (h : (Consolidate o inputs totalAmountBTC address opReturnData).1 = .ok txid) :
    ∃ hex, o.sendRaw hex = .ok txid := by
  unfold Consolidate at h
  dsimp only at h
  by_cases hle : totalAmountBTC - (10.5 +
      ((inputs.mergeSort (fun a b => decide (b.amount ≤ a.amount))).length : ℚ) * 148 +
      ((if 0 < opReturnData.length then 2 else 1 : ℕ) : ℚ) * 31) * 0.15 / 100000000 ≤ 0
  · rw [if_pos hle] at h
    cases h
  · rw [if_neg hle] at h
    cases hc : o.createRawWithInputs
        (inputs.mergeSort (fun a b => decide (b.amount ≤ a.amount))) address
        (totalAmountBTC - (10.5 +
          ((inputs.mergeSort (fun a b => decide (b.amount ≤ a.amount))).length : ℚ) * 148 +
          ((if 0 < opReturnData.length then 2 else 1 : ℕ) : ℚ) * 31) * 0.15 / 100000000)
        (0 < opReturnData.length) with
    | error e =>
      simp only [hc] at h
      cases h
    | ok rawTxHex =>
      simp only [hc] at h
      cases hs : o.signRaw rawTxHex with
      | error e =>
        simp only [hs] at h
        cases h
      | ok signResult =>
        obtain ⟨signedHex, complete⟩ := signResult
        simp only [hs] at h
        cases complete with
        | false =>
          rw [if_pos rfl] at h
          cases h
        | true =>
          rw [if_neg (by decide)] at h
          cases hb : o.sendRaw signedHex with
          | error e =>
            simp only [hb] at h
            cases h
          | ok txid' =>
            simp only [hb] at h
            cases h
            exact ⟨signedHex, hb⟩

/-- C6 (amended): ConsolidateUTXOs attempts a broadcast iff the collected
count is at least 1 and at least the configured minimum (with a minimum of 0
a zero-eligible run still skips); zero eligible outputs yield the "no UTXOs
below threshold" skip, a positive count below the minimum yields the skip
citing the count and the minimum, and every returned result carries a
terminal outcome or a skip reason, never both. -/
theorem consolidation_skip_dichotomy (o : RpcOracle) (cfg : ConsolidationConfig)
    (utxos : List UTXO) (hls : o.listUnspent = .ok utxos) :
    ((ConsolidateUTXOs o cfg).2 = true ↔
      1 ≤ (consolidationCandidates cfg utxos).length ∧
      cfg.minConsolidationUTXOs ≤ (consolidationCandidates cfg utxos).length) ∧
    ((consolidationCandidates cfg utxos).length = 0 →
      ConsolidateUTXOs o cfg =
        (.ok { skipReason :=
          fmtNoUTXOsSkipReason cfg.consolidationAmountThresholdBTC }, false)) ∧
    (0 < (consolidationCandidates cfg utxos).length →
      (consolidationCandidates cfg utxos).length < cfg.minConsolidationUTXOs →
      ConsolidateUTXOs o cfg =
        (.ok { count := (consolidationCandidates cfg utxos).length,
               skipReason := fmtTooFewSkipReason
                 (consolidationCandidates cfg utxos).length
                 cfg.minConsolidationUTXOs }, false)) ∧
    (∀ r, (ConsolidateUTXOs o cfg).1 = .ok r →
      (∀ hex t, o.sendRaw hex = .ok t → t ≠ "") →
      (r.txID ≠ "" ∧ r.skipReason = "") ∨ (r.txID = "" ∧ r.skipReason ≠ "")) := by
  unfold ConsolidateUTXOs
  rw [hls]
  dsimp only
  by_cases h0 : (consolidationCandidates cfg utxos).length = 0
  · rw [if_pos h0]
    refine ⟨by simp [h0], fun _ => rfl, fun hpos _ => absurd h0 (by omega), ?_⟩
    intro r hr _
    cases hr
    exact Or.inr ⟨rfl, fmtNoUTXOsSkipReason_ne_empty _⟩
  · rw [if_neg h0]
    by_cases h1 : (consolidationCandidates cfg utxos).length <
        cfg.minConsolidationUTXOs
    · rw [if_pos h1]
      refine ⟨by simp; omega, fun hz => absurd hz h0, fun _ _ => rfl, ?_⟩
      intro r hr _
      cases hr
      exact Or.inr ⟨rfl, fmtTooFewSkipReason_ne_empty _ _⟩
    · rw [if_neg h1]
      have hiff : 1 ≤ (consolidationCandidates cfg utxos).length ∧
          cfg.minConsolidationUTXOs ≤ (consolidationCandidates cfg utxos).length :=
        ⟨by omega, by omega⟩
      cases hga : o.getNewAddress "consolidated" "bech32" with
      | error e =>
        refine ⟨by simp [hiff], fun hz => absurd hz h0,
          fun _ hlt => absurd hlt h1, ?_⟩
        intro r hr
        cases hr
      | ok newAddress =>
        dsimp only
        cases hcons : (Consolidate o (consolidationCandidates cfg utxos)
            ((consolidationCandidates cfg utxos).map (fun u => u.amount)).sum
            newAddress defaultOpReturn).1 with
        | error e =>
          refine ⟨by simp [hiff], fun hz => absurd hz h0,
            fun _ hlt => absurd hlt h1, ?_⟩
          intro r hr
          cases hr
        | ok txid =>
          refine ⟨by simp [hiff], fun hz => absurd hz h0,
            fun _ hlt => absurd hlt h1, ?_⟩
          intro r hr hne
          cases hr
          left
          refine ⟨?_, rfl⟩
          obtain ⟨hex, hhex⟩ := consolidate_ok_exists o
            (consolidationCandidates cfg utxos)
            ((consolidationCandidates cfg utxos).map (fun u => u.amount)).sum
            newAddress defaultOpReturn txid hcons
          exact hne hex txid hhex

/-- C6 counterexample: with `MinConsolidationUTXOs = 0` (a configuration
`main.go` accepts) and an empty UTXO set, the collected count (0) meets the
configured minimum, yet the run skips instead of attempting a broadcast —
the claimed "if and only if" fails. -/
theorem consolidation_broadcast_iff_cex :
    ¬ ((ConsolidateUTXOs (oracleUp 1) cfgMinZero).2 = true ↔
       cfgMinZero.minConsolidationUTXOs ≤
         (consolidationCandidates cfgMinZero []).length) := by
  have h2 : (ConsolidateUTXOs (oracleUp 1) cfgMinZero).2 = false := by
    norm_num [ConsolidateUTXOs, oracleUp, consolidationCandidates,
      selectSmallUTXOs, cfgMinZero]
  rw [h2]
  norm_num [consolidationCandidates, selectSmallUTXOs, cfgMinZero]

/-- C6 witness: one eligible small UTXO with a configured minimum of 2 yields
the skip citing 1 found and 2 required, with no broadcast attempt. -/
theorem consolidation_skip_dichotomy_w :
    ConsolidateUTXOs oracleOneSmall cfgStd =
      (.ok { count := (consolidationCandidates cfgStd [smallUTXO 0]).length,
             skipReason := fmtTooFewSkipReason
               (consolidationCandidates cfgStd [smallUTXO 0]).length
               cfgStd.minConsolidationUTXOs }, false) :=
  (consolidation_skip_dichotomy oracleOneSmall cfgStd [smallUTXO 0] rfl).2.2.1
    (by norm_num [consolidationCandidates, selectSmallUTXOs, cfgStd, smallUTXO,
      dustLimitBTC])
    (by norm_num [consolidationCandidates, selectSmallUTXOs, cfgStd, smallUTXO,
      dustLimitBTC])

/-- C7 (amended): The cached wallet balance is set by a synchronous read at
startup before any refresh tick (that initial value is zero when the startup
node query fails or the wallet is empty); every refresh whose query fails or
returns a non-positive balance leaves the cache unchanged; hence every read
returns either the initial synchronous read's value or the value of a
successful positive refresh. -/
theorem balance_cache_provenance :
    (∀ (oInit : RpcOracle) (ticks : List RpcOracle),
      cachedWalletBalance oInit ticks = GetAvailableWalletBalance oInit ∨
      ∃ o ∈ ticks, 0 < GetAvailableWalletBalance o ∧
        cachedWalletBalance oInit ticks = GetAvailableWalletBalance o) ∧
    (∀ (cur : ℚ) (o : RpcOracle), GetAvailableWalletBalance o ≤ 0 →
      balanceRefreshStep cur o = cur) := by
  constructor
  · intro oInit ticks
    unfold cachedWalletBalance
    generalize GetAvailableWalletBalance oInit = init
    induction ticks generalizing init with
    | nil => exact Or.inl rfl
    | cons o rest ih =>
      rw [List.foldl_cons]
      unfold balanceRefreshStep
      dsimp only
      by_cases hpos : 0 < GetAvailableWalletBalance o
      · rw [if_pos hpos]
        rcases ih (GetAvailableWalletBalance o) with h | ⟨o', ho', hpos', hv⟩
        · exact Or.inr ⟨o, List.mem_cons_self o rest, hpos, h⟩
        · exact Or.inr ⟨o', List.mem_cons_of_mem o ho', hpos', hv⟩
      · rw [if_neg hpos]
        rcases ih init with h | ⟨o', ho', hpos', hv⟩
        · exact Or.inl h
        · exact Or.inr ⟨o', List.mem_cons_of_mem o ho', hpos', hv⟩
  · intro cur o h
    unfold balanceRefreshStep
    dsimp only
    rw [if_neg (not_lt.mpr h)]

/-- C7 counterexample: when the startup `getbalances` query fails,
`GetAvailableWalletBalance` returns 0.0, the synchronous initialization
stores it, and a reader of the cache observes zero — refuting "no reader
ever observes a zero/uninitialized value". -/
theorem balance_cache_zero_init_cex :
    cachedWalletBalance oracleDown [] = 0 := rfl

/-- C7 witness: a refresh tick against an unreachable node leaves the cached
value (5 BTC) unchanged. -/
theorem balance_cache_provenance_w :
    balanceRefreshStep 5 oracleDown = 5 :=
  balance_cache_provenance.2 5 oracleDown (by
    norm_num [GetAvailableWalletBalance, oracleDown])

/-- C8: For a tier resolved to `[min, max)` the persisted amount is
`min + k * 1e-8` for the drawn integer `k`; every drawable `k` (an outcome of
`rand.Intn(rangeSats)`, i.e. `0 ≤ k < rangeSats`) lies in
`[0, (max-min)*1e8)`, making the amount satoshi-quantized, at least `min`,
and strictly below `max`. -/
theorem payout_amount_in_range (r : AmountRange) (k : Nat)
    (hlt : r.minBTC < r.maxBTC) (hk : (k : Int) < payoutRangeSats r) :
    payoutAmountBTC r k = r.minBTC + (k : ℚ) * (1 / 100000000) ∧
    (k : ℚ) < (r.maxBTC - r.minBTC) * 100000000 ∧
    payoutAmountBTC r k * 100000000 = r.minBTC * 100000000 + (k : ℚ) ∧
    r.minBTC ≤ payoutAmountBTC r k ∧
    payoutAmountBTC r k < r.maxBTC := by
  have hkq : (k : ℚ) < (r.maxBTC - r.minBTC) * 100000000 := by
    have h1 : ((k : ℤ) : ℚ) < ((payoutRangeSats r : ℤ) : ℚ) := by
      exact_mod_cast hk
    have h2 : ((payoutRangeSats r : ℤ) : ℚ) ≤ (r.maxBTC - r.minBTC) * 100000000 := by
      unfold payoutRangeSats
      exact Int.floor_le _
    have h3 : ((k : ℤ) : ℚ) = (k : ℚ) := by push_cast; ring
    linarith
  have hamt : payoutAmountBTC r k = r.minBTC + (k : ℚ) * (1 / 100000000) := by
    unfold payoutAmountBTC
    rw [show (0.00000001 : ℚ) = 1 / 100000000 by norm_num]
    ring
  refine ⟨hamt, hkq, ?_, ?_, ?_⟩
  · rw [hamt]
    ring
  · rw [hamt]
    have hnn : 0 ≤ (k : ℚ) * (1 / 100000000) := by positivity
    linarith
  · rw [hamt]
    linarith

/-- C8 witness: tier 1 (0.001–0.009 BTC) with draw k = 42 yields an amount
inside `[min, max)`. -/
theorem payout_amount_in_range_w :
    rangeTier1.minBTC ≤ payoutAmountBTC rangeTier1 42 ∧
    payoutAmountBTC rangeTier1 42 < rangeTier1.maxBTC := by
  obtain ⟨-, -, -, h4, h5⟩ := payout_amount_in_range rangeTier1 42
    (by norm_num [rangeTier1])
    (by
      unfold payoutRangeSats rangeTier1
      dsimp only
      rw [show ((9:ℚ)/1000 - 1/1000) * 100000000 = ((800000 : ℤ) : ℚ) by norm_num,
        Int.floor_intCast]
      norm_num)
  exact ⟨h4, h5⟩

/-- C9: At most one record ever exists per destination address: every
reachable store has pairwise-distinct addresses, and a submission that
passes the earlier gates but names an address already on file changes
nothing and reports the "Address already used" conflict, regardless of the
existing record's status. -/
theorem destination_address_unique :
    (∀ ops : List Op, ((run ops).map (fun t => t.address)).Nodup) ∧
    (∀ (cfg : SubmitConfig) (store : List Transaction) (isAdminIP : Bool)
       (now : ℚ) (address clientIP : String) (nextId : Nat) (amountBTC : ℚ)
       (t : Transaction), t ∈ store → t.address = address →
      (isAdminIP = true ∨
        recentCountForIP store clientIP now < cfg.maxWithdrawalsPerIP24h) →
      submitHandler cfg store true true isAdminIP now address clientIP nextId
        amountBTC = (store, .addressAlreadyUsed)) := by
  constructor
  · exact addresses_nodup_run
  · intro cfg store isAdminIP now address clientIP nextId amountBTC t ht hta hrl
    unfold submitHandler
    rw [if_neg (by decide), if_neg (by decide)]
    rw [if_neg ?hrl]
    case hrl =>
      rcases hrl with h | h
      · intro hc
        rw [h] at hc
        cases hc.1
      · intro hc
        exact absurd hc.2 (not_le.mpr h)
    rw [if_pos (List.any_eq_true.mpr ⟨t, ht, by simpa using hta⟩)]

/-- C9 witness: submitting the address of an already-broadcast record (from
an admin IP, so no rate limit applies) changes nothing and reports the
conflict. -/
theorem destination_address_unique_w :
    submitHandler ⟨2⟩ storeOneBroadcast true true true 0 "tb1qaaa" "9.9.9.9" 1 1 =
      (storeOneBroadcast, .addressAlreadyUsed) :=
  destination_address_unique.2 ⟨2⟩ storeOneBroadcast true 0 "tb1qaaa" "9.9.9.9" 1 1
    ⟨0, 0, "tb1qaaa", "1.2.3.4", "txid0", 1, .broadcast, ""⟩
    (by norm_num [storeOneBroadcast]) rfl (Or.inl rfl)

/-- C10: An amount strictly below 0.00001 BTC makes
`SendToAddressWithOpReturn` return the "Amount too low" error before any node
RPC (empty call trace, so nothing is created, funded, signed or broadcast);
consequently no reachable store ever holds a below-dust record in
`broadcast`, and a below-dust record of an admitted batch ends `failed` with
that error text. -/
theorem dust_amounts_never_broadcast :
    (∀ (o : RpcOracle) (address : String) (amountBTC feeRateSatsPerVB : ℚ)
       (opReturnData : String), amountBTC < dustLimitBTC →
      SendToAddressWithOpReturn o address amountBTC feeRateSatsPerVB
        opReturnData = (.error "Amount too low", [])) ∧
    (∀ (ops : List Op) (t : Transaction), t ∈ run ops →
      t.amountBTC < dustLimitBTC → t.status ≠ .broadcast) ∧
    (∀ (o : RpcOracle) (store : List Transaction) (tx : Transaction),
      (store.map (fun t => t.id)).Nodup →
      tx ∈ GetTransactions store .pending 50 →
      ¬ GetAvailableWalletBalance o <
        ((GetTransactions store .pending 50).map (fun t => t.amountBTC)).sum →
      tx.amountBTC < dustLimitBTC →
      lookupId (processBatch o store) tx.id =
        some { tx with status := .failed, errorMsg := "Amount too low" }) := by
  refine ⟨?_, dust_invariant_run, ?_⟩
  · intro o address amountBTC feeRateSatsPerVB opReturnData h
    unfold SendToAddressWithOpReturn
    rw [if_pos h]
  · intro o store tx hnd htx hbal hdust
    rw [(processBatch_lookupId o store hnd hbal).2 tx htx]
    unfold applyOutcome
    rw [sendForTxn_dust o tx hdust]

/-- C10 witness: a queued 500-satoshi request, processed by an admitted batch
against a healthy node, ends `failed` with the "Amount too low" error. -/
theorem dust_amounts_never_broadcast_w :
    lookupId (processBatch (oracleUp 5) storeOneDust) 0 =
      some ⟨0, 0, "tb1qaaa", "1.2.3.4", "", 1/200000, .failed, "Amount too low"⟩ :=
  (dust_amounts_never_broadcast).2.2 (oracleUp 5) storeOneDust
    ⟨0, 0, "tb1qaaa", "1.2.3.4", "", 1/200000, .pending, ""⟩
    (by norm_num [storeOneDust])
    (by norm_num [GetTransactions, storeOneDust])
    (by norm_num [GetTransactions, GetAvailableWalletBalance, oracleUp,
      storeOneDust])
    (by norm_num [dustLimitBTC])

end Faucet

